import Mathlib

/-
Verification of the "Cosmic Color Lab" repository (galaxy / particle / color-cube
visual demo).  The numeric code is shallowly embedded: the per-frame arithmetic of
the JavaScript source is translated to Lean functions over ℚ where it is
polynomial/piecewise-rational, and over ℝ where the source calls Math.sqrt,
Math.sin/cos or Math.atan2.  Stateful per-frame loops become explicit step
functions on small state structures.
-/

namespace CosmicLab

/-- THREE.MathUtils.lerp and MathUtils.lerp from utils.js: `start + (end - start) * t`. -/
def lerp (x y t : ℚ) : ℚ := x + (y - x) * t

/-- JavaScript `Math.round` on an exact rational: round half toward positive infinity. -/
def jsRound (x : ℚ) : ℤ := ⌊x + 1/2⌋

/-! ## Color cube growth easing (ColorCube.updateGrowthAnimation, both copies)

Source:
    if (this.growthProgress < 0.5) { eased = 8 * Math.pow(this.growthProgress, 4); }
    else { eased = 1 - Math.pow(-2 * this.growthProgress + 2, 4) / 2; }
-/

/-- The quartic ease-in-out computed inline by `ColorCube.updateGrowthAnimation`. -/
def easeGrowth (p : ℚ) : ℚ :=
  if p < 1/2 then 8 * p ^ 4 else 1 - (-2 * p + 2) ^ 4 / 2

/-! ## Galaxy explosion / formation phase (GalaxyLayer.animate, explosion branch)

Source:
    let formationProgress = 0;
    if (elapsed > 2.0) {
        formationProgress = Math.min((elapsed - 2.0) / 4.0, 1);
        formationProgress = 1 - Math.pow(1 - formationProgress, 3);
    }
-/

/-- Formation blend fraction as a function of elapsed seconds since the Big Bang
trigger: `ease_out_cubic (min ((t-2)/4) 1)` for `t > 2`, and `0` otherwise. -/
def formationProgress (t : ℚ) : ℚ :=
  if 2 < t then 1 - (1 - min ((t - 2) / 4) 1) ^ 3 else 0

/-- Ballistic explosion coordinate: `velocities[i] * elapsed * (1 - elapsed * 0.1)`
(one coordinate; the three coordinates are computed identically). -/
def explosionPos (v t : ℚ) : ℚ := v * t * (1 - t * (1/10))

/-- One coordinate of the per-point position written by the explosion branch of
`GalaxyLayer.animate`: while `formationProgress < 1` the point is written either on
its ballistic path (blend = 0) or lerped toward its spiral target (blend > 0);
once `formationProgress = 1` the loop body no longer writes the position (it flips
the phase to `complete` instead), so the previous value is kept. -/
def explosionPointStep (prev v tgt t : ℚ) : ℚ :=
  if formationProgress t < 1 then
    if 0 < formationProgress t then
      lerp (explosionPos v t) tgt (formationProgress t)
    else
      explosionPos v t
  else prev

/-! ## Galaxy phase state machine (GalaxyLayer.bigBangState) -/

/-- The values taken by `GalaxyLayer.bigBangState`. -/
inductive BigBangState where
  | idle
  | singularity
  | explosion
  | complete
deriving DecidableEq

/-- Ordering of the phases along the scripted choreography. -/
def phaseRank : BigBangState → ℕ
  | .idle => 0
  | .singularity => 1
  | .explosion => 2
  | .complete => 3

/-- Phase reached after one `GalaxyLayer.animate` frame at elapsed time `t`:
the singularity branch returns without touching the phase, the explosion branch
flips to `complete` exactly when the per-point check `formationProgress < 1`
fails (the particle count 15000 is positive, so the loop body runs), and the
complete branch never changes the phase.  `startBigBang` is the only external
transition and is modelled separately. -/
def animatePhase (s : BigBangState) (t : ℚ) : BigBangState :=
  match s with
  | .explosion => if formationProgress t < 1 then .explosion else .complete
  | s => s

/-- Source `GalaxyLayer.startBigBang` sets the phase to `explosion` unconditionally. -/
def startBigBang (_ : BigBangState) : BigBangState := .explosion

/-- Whether one `animate` frame emits `galaxy:bigBangComplete`: the event fires
exactly on the frame whose loop flips the phase from `explosion` to `complete`
(the emit is guarded by `bigBangState === 'complete'` inside the explosion
branch; the complete branch of later frames never emits). -/
def animateEmits (s : BigBangState) (t : ℚ) : Bool :=
  match s with
  | .explosion => decide (1 ≤ formationProgress t)
  | _ => false

/-- Phase after a run of `animate` frames at the given elapsed times. -/
def runPhase (s : BigBangState) (ts : List ℚ) : BigBangState :=
  ts.foldl animatePhase s

/-- Number of `galaxy:bigBangComplete` emissions over a run of `animate` frames. -/
def emitCount (s : BigBangState) : List ℚ → ℕ
  | [] => 0
  | t :: ts => (if animateEmits s t then 1 else 0) + emitCount (animatePhase s t) ts

/-! ## Event bus (utils.js, class EventBus)

Handlers are identified by natural numbers (JavaScript compares handler
references by identity; any type with decidable equality models this).  The
registry `this.events` is a map from event names to the ordered list of
registered handlers; a missing key behaves as the empty list.  `emit` calls each
registered handler in list order with the payload; its synchronous call sequence
is modelled as the returned invocation trace. -/

/-- Handler identity (JS function reference). -/
abbrev Handler := ℕ

/-- The `EventBus` registry: event name to ordered handler list. -/
structure EventBus where
  events : String → List Handler

/-- The bus constructed by `new EventBus()`: no registrations. -/
def EventBus.empty : EventBus := ⟨fun _ => []⟩

/-- Source `EventBus.on(event, callback)`: create the list if missing, then push. -/
def EventBus.on (b : EventBus) (e : String) (cb : Handler) : EventBus :=
  ⟨fun e' => if e' = e then b.events e' ++ [cb] else b.events e'⟩

/-- Source `EventBus.off(event, callback)`: filter out the exact handler reference. -/
def EventBus.off (b : EventBus) (e : String) (cb : Handler) : EventBus :=
  ⟨fun e' => if e' = e then (b.events e').filter (fun h => h ≠ cb) else b.events e'⟩

/-- Source `EventBus.emit(event, data)`: the sequence of synchronous handler
invocations, in list (= registration) order, each receiving the payload.  An
event with no registered handlers yields the empty trace (the early `return`). -/
def EventBus.emitTrace {α : Type} (b : EventBus) (e : String) (data : α) :
    List (Handler × α) :=
  (b.events e).map (fun cb => (cb, data))

/-- Source `EventBus.clear()`: drop every registration. -/
def EventBus.clear (_ : EventBus) : EventBus := EventBus.empty

/-! ## Palette (app-controller.js, CosmicLabApp.addToPalette) -/

/-- A palette entry as stored in `appState.palette` (a sampled color record;
the claim only inspects `hex` and the list shape, the numeric channels are kept
for faithfulness). -/
structure PaletteColor where
  r : ℤ
  g : ℤ
  b : ℤ
  hex : String
deriving DecidableEq

/-- Source `CosmicLabApp.addToPalette(color)`:
    if the hex is already present, return unchanged;
    otherwise `shift()` the oldest entry when the length is already ≥ 8,
    then `push(color)`. -/
def addToPalette (pal : List PaletteColor) (c : PaletteColor) : List PaletteColor :=
  if pal.any (fun x => x.hex = c.hex) then pal
  else (if 8 ≤ pal.length then pal.drop 1 else pal) ++ [c]

/-! ## Color conversion (utils.js, ColorUtils)

`rgbToHsl` / `hslToRgb` are translated verbatim over exact rationals. -/

/-- The sequential wrap at the top of `hue2rgb`:
    `if (t < 0) t += 1; if (t > 1) t -= 1;` (the second test sees the updated t;
when the first fires, the updated value is at most 1, so at most one fires). -/
def hueWrap (t0 : ℚ) : ℚ :=
  if 1 < (if t0 < 0 then t0 + 1 else t0) then (if t0 < 0 then t0 + 1 else t0) - 1
  else (if t0 < 0 then t0 + 1 else t0)

/-- Function `hue2rgb(p, q, t)` from `ColorUtils.hslToRgb`, with the wrapped parameter
factored through `hueWrap`. -/
def hue2rgb (p q t0 : ℚ) : ℚ :=
  if hueWrap t0 < 1/6 then p + (q - p) * 6 * hueWrap t0
  else if hueWrap t0 < 1/2 then q
  else if hueWrap t0 < 2/3 then p + (q - p) * (2/3 - hueWrap t0) * 6
  else p

/-- The maximum of the three normalized channels (`const max = Math.max(r, g, b)`). -/
def rgbMax (x y z : ℚ) : ℚ := max x (max y z)

/-- The minimum of the three normalized channels (`const min = Math.min(r, g, b)`). -/
def rgbMin (x y z : ℚ) : ℚ := min x (min y z)

/-- The lightness `(max + min) / 2` on normalized channels. -/
def rgbLum (x y z : ℚ) : ℚ := (rgbMax x y z + rgbMin x y z) / 2

/-- The saturation branch of `rgbToHsl` on normalized channels:
    `s = l > 0.5 ? d / (2 - max - min) : d / (max + min)`. -/
def rgbSat (x y z : ℚ) : ℚ :=
  if 1/2 < rgbLum x y z then
    (rgbMax x y z - rgbMin x y z) / (2 - rgbMax x y z - rgbMin x y z)
  else (rgbMax x y z - rgbMin x y z) / (rgbMax x y z + rgbMin x y z)

/-- The hue `switch (max)` of `rgbToHsl` on normalized channels (the switch
matches `case r` first, then `case g`, then `case b`). -/
def rgbHue (x y z : ℚ) : ℚ :=
  if rgbMax x y z = x then
    ((y - z) / (rgbMax x y z - rgbMin x y z) + (if y < z then 6 else 0)) / 6
  else if rgbMax x y z = y then
    ((z - x) / (rgbMax x y z - rgbMin x y z) + 2) / 6
  else ((x - y) / (rgbMax x y z - rgbMin x y z) + 4) / 6

/-- Source `ColorUtils.rgbToHsl(r, g, b)`: input channels 0..255, output
`(h, s, l)` scaled to degrees / percent.  When `max === min` the hue and
saturation are 0. -/
def rgbToHsl (r g b : ℚ) : ℚ × ℚ × ℚ :=
  if rgbMax (r/255) (g/255) (b/255) = rgbMin (r/255) (g/255) (b/255) then
    (0, 0, rgbLum (r/255) (g/255) (b/255) * 100)
  else
    (rgbHue (r/255) (g/255) (b/255) * 360,
     rgbSat (r/255) (g/255) (b/255) * 100,
     rgbLum (r/255) (g/255) (b/255) * 100)

/-- Line `const q = l < 0.5 ? l * (1 + s) : l + s - l * s;` of `hslToRgb`. -/
def hslQ (s l : ℚ) : ℚ := if l < 1/2 then l * (1 + s) else l + s - l * s

/-- Line `const p = 2 * l - q;` of `hslToRgb`. -/
def hslP (s l : ℚ) : ℚ := 2 * l - hslQ s l

/-- Source `ColorUtils.hslToRgb(h, s, l)`: input in degrees / percent, output integer
channels via `Math.round(x * 255)`. -/
def hslToRgb (h s l : ℚ) : ℤ × ℤ × ℤ :=
  if s / 100 = 0 then
    (jsRound (l / 100 * 255), jsRound (l / 100 * 255), jsRound (l / 100 * 255))
  else
    (jsRound (hue2rgb (hslP (s/100) (l/100)) (hslQ (s/100) (l/100)) (h/360 + 1/3) * 255),
     jsRound (hue2rgb (hslP (s/100) (l/100)) (hslQ (s/100) (l/100)) (h/360) * 255),
     jsRound (hue2rgb (hslP (s/100) (l/100)) (hslQ (s/100) (l/100)) (h/360 - 1/3) * 255))

/-! ## Galaxy color sampling (GalaxyLayer.sampleColorsInRegion)

Positions and stored colors are exact rationals.  The source guard is
`Math.sqrt((px - x) ** 2 + (py - y) ** 2) < radius`; over the reals
`sqrt(s) < radius  ↔  0 < radius ∧ s < radius²` (lemma `sqrt_lt_iff_sq_lt`
below), which is the square-root-free form used here so that the definition
stays executable over ℚ. -/

/-- One record of the galaxy point cloud: current position `(px, py, pz)` and
stored color channels `(cr, cg, cb)` (raw floats in the source, unclamped). -/
structure GPoint where
  px : ℚ
  py : ℚ
  pz : ℚ
  cr : ℚ
  cg : ℚ
  cb : ℚ
deriving DecidableEq

/-- One sampled color: `Math.round(channel * 255)` per channel plus the derived
HSL triple (the derived hex string is omitted; no claim inspects it). -/
structure Sample where
  r : ℤ
  g : ℤ
  b : ℤ
  hsl : ℚ × ℚ × ℚ
deriving DecidableEq

/-- The region test of `sampleColorsInRegion`, square-root-free. -/
def inRegion (x y radius : ℚ) (pt : GPoint) : Prop :=
  0 < radius ∧ (pt.px - x) ^ 2 + (pt.py - y) ^ 2 < radius ^ 2

instance (x y radius : ℚ) (pt : GPoint) : Decidable (inRegion x y radius pt) := by
  unfold inRegion; infer_instance

/-- The sample built for one in-region point. -/
def mkSample (pt : GPoint) : Sample :=
  { r := jsRound (pt.cr * 255)
    g := jsRound (pt.cg * 255)
    b := jsRound (pt.cb * 255)
    hsl := rgbToHsl (jsRound (pt.cr * 255) : ℤ) (jsRound (pt.cg * 255) : ℤ)
      (jsRound (pt.cb * 255) : ℤ) }

/-- Source `GalaxyLayer.sampleColorsInRegion(x, y, radius)`: collect a sample for every
point strictly inside the radius, then `slice(0, 50)`. -/
def sampleColorsInRegion (points : List GPoint) (x y radius : ℚ) : List Sample :=
  (((points.filter (fun pt => decide (inRegion x y radius pt))).map mkSample)).take 50

/-! ## Galaxy steady-state frame (GalaxyLayer.animate, complete branch)

The source uses `Math.sin`, `Math.sqrt` and `Math.atan2`, so this part is
embedded over ℝ. -/

/-- JavaScript `Math.atan2(y, x)` (the argument of the point `(x, y)`). -/
noncomputable def jsAtan2 (y x : ℝ) : ℝ := Complex.arg (Complex.mk x y)

/-- Constant `config.mouseInfluenceRadius` of the galaxy layer. -/
def gMouseInfluenceRadius : ℝ := 3

/-- Constant `config.mouseForce` of the galaxy layer. -/
def gMouseForce : ℝ := 2

/-- A 3D position over the reals. -/
structure Vec3 where
  x : ℝ
  y : ℝ
  z : ℝ

/-- Line `positions[i3 + 1] = oy + Math.sin(time + ox) * 0.5;` — the vertical
coordinate written by the steady-state frame before the mouse test. -/
noncomputable def gSineY (orig : Vec3) (time : ℝ) : ℝ :=
  orig.y + Real.sin (time + orig.x) * 0.5

/-- Line `const dx = positions[i3] - this.mouse.x;` of the steady-state loop. -/
def gDx (pos : Vec3) (mx : ℝ) : ℝ := pos.x - mx

/-- Line `const dy = positions[i3 + 1] - (-this.mouse.y);` of the steady-state loop
(the vertical coordinate was just overwritten with the sine value). -/
noncomputable def gDy (orig : Vec3) (my time : ℝ) : ℝ := gSineY orig time - (-my)

/-- Line `const dist = Math.sqrt(dx * dx + dy * dy);` of the steady-state loop. -/
noncomputable def gDist (pos orig : Vec3) (mx my time : ℝ) : ℝ :=
  Real.sqrt (gDx pos mx * gDx pos mx + gDy orig my time * gDy orig my time)

/-- One iteration of the per-point loop in the complete branch of
`GalaxyLayer.animate`: the vertical coordinate is first overwritten with the
spiral-target vertical plus a sine of elapsed time, then the point is either
pushed away from the (smoothed, y-inverted) pointer or has its horizontal
coordinate pulled 5% toward the spiral target.  `pos` is the current position,
`orig` the spiral target, `(mx, my)` the smoothed mouse, `time` the clock. -/
noncomputable def galaxyCompletePointStep (pos orig : Vec3) (mx my time : ℝ) : Vec3 :=
  if gDist pos orig mx my time < gMouseInfluenceRadius then
    let force := (gMouseInfluenceRadius - gDist pos orig mx my time) / gMouseInfluenceRadius
    let angle := jsAtan2 (gDy orig my time) (gDx pos mx)
    ⟨pos.x + Real.cos angle * force * gMouseForce,
     gSineY orig time + Real.sin angle * force * gMouseForce,
     pos.z⟩
  else
    ⟨pos.x + (orig.x - pos.x) * 0.05, gSineY orig time, pos.z⟩

/-! ## 2D particle layer (js/particle-layer.js) -/

/-- Constant `config.ease` of `ParticleLayer`. -/
def pEase : ℝ := 0.08

/-- Constant `config.mouseInfluenceRadius` of the particle layer. -/
def pMouseInfluenceRadius : ℝ := 120

/-- Constant `config.mouseRepulsionForce` of the particle layer. -/
def pMouseRepulsionForce : ℝ := 3

/-- Constant `config.mouseScaleMultiplier` of the particle layer. -/
def pMouseScaleMultiplier : ℝ := 3.5

/-- One 2D particle: HSL color, current/target position, radii, glow. -/
structure Particle where
  h : ℝ
  s : ℝ
  l : ℝ
  x : ℝ
  y : ℝ
  tx : ℝ
  ty : ℝ
  radius : ℝ
  baseRadius : ℝ
  targetRadius : ℝ
  glowIntensity : ℝ

/-- Source `Particle.update(mouse, config)`: lerp toward the target, then apply mouse
interaction on the post-lerp position, then smooth the displayed radius at 15%
toward the (just-updated) target radius. -/
noncomputable def particleUpdate (p : Particle) (mx my : ℝ) : Particle :=
  let x1 := p.x + (p.tx - p.x) * pEase
  let y1 := p.y + (p.ty - p.y) * pEase
  let dx := mx - x1
  let dy := my - y1
  let dist := Real.sqrt (dx * dx + dy * dy)
  if dist < pMouseInfluenceRadius then
    let influence := 1 - dist / pMouseInfluenceRadius
    let tr := p.baseRadius * (1 + influence * (pMouseScaleMultiplier - 1))
    let glow := max p.glowIntensity (influence * 0.8)
    let angle := jsAtan2 dy dx
    let repulsion := pMouseRepulsionForce * influence
    { p with
      x := x1 - Real.cos angle * repulsion
      y := y1 - Real.sin angle * repulsion
      targetRadius := tr
      glowIntensity := glow
      radius := p.radius + (tr - p.radius) * 0.15 }
  else
    { p with
      x := x1
      y := y1
      targetRadius := p.baseRadius
      glowIntensity := p.glowIntensity * 0.9
      radius := p.radius + (p.baseRadius - p.radius) * 0.15 }

/-- The no-influence branch of `Particle.update` on its own (the update applied
on every frame on which the pointer distance test fails). -/
def particleFarUpdate (p : Particle) : Particle :=
  { p with
    x := p.x + (p.tx - p.x) * pEase
    y := p.y + (p.ty - p.y) * pEase
    targetRadius := p.baseRadius
    glowIntensity := p.glowIntensity * 0.9
    radius := p.radius + (p.baseRadius - p.radius) * 0.15 }

/-- The pointer-distance test of `Particle.update`, measured (as in the source)
from the post-lerp position: the particle is outside the influence radius. -/
noncomputable def farFrom (p : Particle) (mx my : ℝ) : Prop :=
  pMouseInfluenceRadius ≤
    Real.sqrt ((mx - (p.x + (p.tx - p.x) * pEase)) * (mx - (p.x + (p.tx - p.x) * pEase)) +
               (my - (p.y + (p.ty - p.y) * pEase)) * (my - (p.y + (p.ty - p.y) * pEase)))

/-- Squared distance from a particle's current position to its target. -/
def distToTargetSq (p : Particle) : ℝ := (p.tx - p.x) ^ 2 + (p.ty - p.y) ^ 2

/-- Euclidean distance from a particle's current position to its target. -/
noncomputable def distToTarget (p : Particle) : ℝ := Real.sqrt (distToTargetSq p)

/-- A freshly constructed particle sits exactly on its target (the constructor
sets `tx = x`, `ty = y`); this concrete instance records that state.  Fields:
h, s, l, x, y, tx, ty, radius, baseRadius, targetRadius, glowIntensity. -/
noncomputable def pAtTarget : Particle := ⟨0, 0, 0, 0, 0, 0, 0, 3/2, 3/2, 3/2, 0⟩

/-- A concrete particle at distance 5 from its target. -/
noncomputable def pOff : Particle := ⟨0, 0, 0, 0, 0, 3, 4, 2, 3/2, 2, 0⟩

/-! ## Particle layer modes (ParticleLayer.setMode / updateTargets)

`Math.random()` (used only for the jitter added in spectrum mode) is modelled
as an oracle indexed by particle position in the list. -/

/-- The four layout modes of the particle layer. -/
inductive PMode where
  | spectrum
  | wheel
  | cylinder
  | sync
deriving DecidableEq

/-- The geometric state of `ParticleLayer` that `updateTargets` reads. -/
structure ParticleLayer where
  particles : List Particle
  mouseX : ℝ
  mouseY : ℝ
  width : ℝ
  height : ℝ
  cx : ℝ
  cy : ℝ
  currentMode : PMode

/-- Target assignment for one particle under `updateTargets`, per mode; `rnd`
is the `Math.random()` draw consumed by the spectrum-mode jitter. -/
noncomputable def computeTarget (L : ParticleLayer) (p : Particle) (rnd : ℝ) : ℝ × ℝ :=
  match L.currentMode with
  | .spectrum =>
      let padding : ℝ := 50
      let tx := padding + (p.h / 360) * (L.width - padding * 2)
      let ty := padding + ((100 - p.l) / 100) * (L.height - padding * 2)
      (tx + (rnd - 0.5) * 10, ty)
  | .wheel =>
      let angle := p.h * Real.pi / 180
      let radius := (p.s / 100) * (min L.width L.height * 0.35)
      (L.cx + Real.cos angle * radius, L.cy + Real.sin angle * radius)
  | .cylinder =>
      let angle := p.h * Real.pi / 180
      let cylinderRadius : ℝ := 150
      (L.cx + Real.cos angle * cylinderRadius * 1.5,
       L.height * 0.2 + ((100 - p.l) / 100) * (L.height * 0.6) + Real.sin angle * 40)
  | .sync =>
      let angle := p.h * Real.pi / 180
      let radius := (p.s / 100) * 100
      (L.mouseX + Real.cos angle * radius, L.mouseY + Real.sin angle * radius)

/-- Source `ParticleLayer.updateTargets()`: recompute every particle's target. -/
noncomputable def updateTargets (L : ParticleLayer) (rand : ℕ → ℝ) : ParticleLayer :=
  { L with particles := L.particles.mapIdx (fun i p =>
      let t := computeTarget L p (rand i)
      { p with tx := t.1, ty := t.2 }) }

/-- Source `ParticleLayer.setMode(mode)`: store the mode, recompute targets, and when
leaving sync mode snap every particle onto its new target. -/
noncomputable def setMode (L : ParticleLayer) (mode : PMode) (rand : ℕ → ℝ) :
    ParticleLayer :=
  let previousMode := L.currentMode
  let L1 := updateTargets { L with currentMode := mode } rand
  if previousMode = .sync ∧ mode ≠ .sync then
    { L1 with particles := L1.particles.map (fun p => { p with x := p.tx, y := p.ty }) }
  else L1

/-- Current positions of a particle list, in order. -/
def positionsOf (ps : List Particle) : List (ℝ × ℝ) := ps.map (fun p => (p.x, p.y))

/-- Target positions of a particle list, in order. -/
def targetsOf (ps : List Particle) : List (ℝ × ℝ) := ps.map (fun p => (p.tx, p.ty))

/-! ## Helper lemmas -/

theorem formationProgress_eq_zero {t : ℚ} (h : t ≤ 2) : formationProgress t = 0 := by
  unfold formationProgress
  rw [if_neg (by linarith)]

theorem formationProgress_pos {t : ℚ} (h : 2 < t) : 0 < formationProgress t := by
  unfold formationProgress
  rw [if_pos h]
  have hm0 : 0 < min ((t - 2) / 4) 1 := lt_min (by linarith) one_pos
  have hm1 : min ((t - 2) / 4) 1 ≤ 1 := min_le_right _ _
  have hpow : (1 - min ((t - 2) / 4) 1) ^ 3 < 1 :=
    pow_lt_one (by linarith) (by linarith) (by norm_num)
  linarith

theorem formationProgress_nonneg (t : ℚ) : 0 ≤ formationProgress t := by
  rcases le_or_lt t 2 with h | h
  · rw [formationProgress_eq_zero h]
  · exact le_of_lt (formationProgress_pos h)

theorem formationProgress_le_one (t : ℚ) : formationProgress t ≤ 1 := by
  unfold formationProgress
  split_ifs with h
  · have hm1 : min ((t - 2) / 4) 1 ≤ 1 := min_le_right _ _
    have : 0 ≤ (1 - min ((t - 2) / 4) 1) ^ 3 := pow_nonneg (by linarith) 3
    linarith
  · norm_num

theorem formationProgress_eq_one {t : ℚ} (h : 6 ≤ t) : formationProgress t = 1 := by
  unfold formationProgress
  rw [if_pos (by linarith)]
  have : min ((t - 2) / 4) 1 = 1 := min_eq_right (by linarith)
  rw [this]
  norm_num

theorem formationProgress_mono {s t : ℚ} (h : s ≤ t) :
    formationProgress s ≤ formationProgress t := by
  rcases le_or_lt s 2 with hs | hs
  · rw [formationProgress_eq_zero hs]
    exact formationProgress_nonneg t
  · have ht : 2 < t := lt_of_lt_of_le hs h
    unfold formationProgress
    rw [if_pos hs, if_pos ht]
    have hmm : min ((s - 2) / 4) 1 ≤ min ((t - 2) / 4) 1 :=
      min_le_min (by linarith) le_rfl
    have hmt : min ((t - 2) / 4) 1 ≤ 1 := min_le_right _ _
    have hpow : (1 - min ((t - 2) / 4) 1) ^ 3 ≤ (1 - min ((s - 2) / 4) 1) ^ 3 :=
      pow_le_pow_left (by linarith) (by linarith) 3
    linarith

theorem animatePhase_complete (t : ℚ) : animatePhase .complete t = .complete := rfl

theorem emitCount_complete (ts : List ℚ) : emitCount .complete ts = 0 := by
  induction ts with
  | nil => rfl
  | cons t ts ih =>
      simp [emitCount, animateEmits, animatePhase_complete, ih]

/-! ## Claim theorems -/

/-- C1: during an explosion-phase frame that still writes positions
(`formationProgress t < 1`), the written coordinate is the ballistic
`velocity * t * (1 - 0.1 * t)` exactly while the eased blend fraction is zero,
which happens exactly for `t ≤ 2.0`; once the blend fraction is positive the
written coordinate is the linear interpolation from the ballistic position to
the fixed spiral target, weighted by `ease_out_cubic (min ((t-2)/4) 1)`. -/
theorem explosion_position_formula (prev v tgt t : ℚ)
    (hlt : formationProgress t < 1) :
    (formationProgress t = 0 ↔ t ≤ 2) ∧
    (t ≤ 2 → explosionPointStep prev v tgt t = v * t * (1 - t * (1/10))) ∧
    (2 < t → 0 < formationProgress t ∧
      explosionPointStep prev v tgt t =
        lerp (explosionPos v t) tgt (formationProgress t)) := by
  refine ⟨⟨fun h0 => ?_, fun h2 => formationProgress_eq_zero h2⟩, fun h2 => ?_, fun h2 => ?_⟩
  · by_contra hgt
    push_neg at hgt
    exact absurd h0 (ne_of_gt (formationProgress_pos hgt))
  · unfold explosionPointStep
    rw [if_pos hlt, if_neg (by rw [formationProgress_eq_zero h2]; norm_num)]
    rfl
  · refine ⟨formationProgress_pos h2, ?_⟩
    unfold explosionPointStep
    rw [if_pos hlt, if_pos (formationProgress_pos h2)]

/-- Witness for C1 at `t = 3` (blend strictly between 0 and 1). -/
theorem explosion_position_formula_witness :
    formationProgress 3 < 1 ∧
    explosionPointStep 0 5 7 3 = lerp (explosionPos 5 3) 7 (formationProgress 3) := by
  have h : formationProgress (3 : ℚ) < 1 := by
    rw [show (3 : ℚ) = 3 by rfl]
    unfold formationProgress
    norm_num
  exact ⟨h, ((explosion_position_formula 0 5 7 3 h).2.2 (by norm_num)).2⟩

/-- C2: once in the explosion phase the blend fraction is non-decreasing in
elapsed time and equals exactly 1 for every `t ≥ 6.0`; an `animate` frame never
lowers the phase (no reversion), a run of frames starting in the complete phase
never emits the completion notification, a run starting in the explosion phase
emits it at most once overall, and exactly once as soon as some frame of the run
has elapsed time `≥ 6.0`. -/
theorem galaxy_phase_monotone_once :
    (∀ s t : ℚ, s ≤ t → formationProgress s ≤ formationProgress t) ∧
    (∀ t : ℚ, 6 ≤ t → formationProgress t = 1) ∧
    (∀ (ph : BigBangState) (t : ℚ), phaseRank ph ≤ phaseRank (animatePhase ph t)) ∧
    (∀ ts : List ℚ, emitCount .complete ts = 0) ∧
    (∀ ts : List ℚ, emitCount .explosion ts ≤ 1) ∧
    (∀ ts : List ℚ, (∃ t ∈ ts, 6 ≤ t) → emitCount .explosion ts = 1) := by
  have hle : ∀ ts : List ℚ, emitCount .explosion ts ≤ 1 := by
    intro ts
    induction ts with
    | nil => norm_num [emitCount]
    | cons t ts ih =>
        simp only [emitCount, animateEmits, animatePhase]
        rcases lt_or_le (formationProgress t) 1 with h | h
        · rw [if_pos h]
          simpa [not_le.mpr h] using ih
        · rw [if_neg (not_lt.mpr h)]
          simp [h, emitCount_complete]
  refine ⟨fun s t h => formationProgress_mono h, fun t h => formationProgress_eq_one h,
    ?_, emitCount_complete, hle, ?_⟩
  · intro ph t
    cases ph with
    | explosion =>
        simp only [animatePhase]
        split_ifs <;> simp [phaseRank]
    | idle => exact le_rfl
    | singularity => exact le_rfl
    | complete => exact le_rfl
  · intro ts
    induction ts with
    | nil => rintro ⟨t, ht, _⟩; cases ht
    | cons t ts ih =>
        rintro ⟨u, hu, hu6⟩
        simp only [emitCount, animateEmits, animatePhase]
        rcases lt_or_le (formationProgress t) 1 with h | h
        · rw [if_pos h]
          have hne : u ≠ t := by
            rintro rfl
            rw [formationProgress_eq_one hu6] at h
            exact lt_irrefl 1 h
          have hmem : u ∈ ts := by
            rcases List.mem_cons.mp hu with h' | h'
            · exact absurd h' hne
            · exact h'
          simpa [not_le.mpr h] using ih ⟨u, hmem, hu6⟩
        · rw [if_neg (not_lt.mpr h)]
          simp [h, emitCount_complete]

/-- Witness for C2 at concrete times. -/
theorem galaxy_phase_monotone_once_witness :
    formationProgress 3 ≤ formationProgress 4 ∧
    formationProgress 7 = 1 ∧
    emitCount .explosion [1, 7, 9] = 1 :=
  ⟨galaxy_phase_monotone_once.1 3 4 (by norm_num),
   galaxy_phase_monotone_once.2.1 7 (by norm_num),
   galaxy_phase_monotone_once.2.2.2.2.2 [1, 7, 9] ⟨7, by norm_num, by norm_num⟩⟩

/-- C7: the growth easing satisfies `easeGrowth 0 = 0`, `easeGrowth (1/2) = 1/2`,
`easeGrowth 1 = 1` and is monotonically non-decreasing on `[0, 1]`. -/
theorem easeGrowth_boundary_and_monotone :
    easeGrowth 0 = 0 ∧ easeGrowth (1/2) = 1/2 ∧ easeGrowth 1 = 1 ∧
    ∀ a b : ℚ, 0 ≤ a → a ≤ b → b ≤ 1 → easeGrowth a ≤ easeGrowth b := by
  refine ⟨by norm_num [easeGrowth], by norm_num [easeGrowth], by norm_num [easeGrowth],
    fun a b ha hab hb1 => ?_⟩
  unfold easeGrowth
  rcases lt_or_le a (1/2) with ha2 | ha2 <;> rcases lt_or_le b (1/2) with hb2 | hb2
  · rw [if_pos ha2, if_pos hb2]
    have := pow_le_pow_left ha hab 4
    linarith
  · rw [if_pos ha2, if_neg (not_lt.mpr hb2)]
    have h1 : a ^ 4 ≤ (1/2 : ℚ) ^ 4 := pow_le_pow_left ha (le_of_lt ha2) 4
    have h2 : (-2 * b + 2) ^ 4 ≤ 1 ^ 4 := pow_le_pow_left (by linarith) (by linarith) 4
    norm_num at h1 h2 ⊢
    linarith
  · exact absurd (lt_of_le_of_lt (le_trans ha2 hab) hb2) (lt_irrefl _)
  · rw [if_neg (not_lt.mpr ha2), if_neg (not_lt.mpr hb2)]
    have h1 : (-2 * b + 2) ^ 4 ≤ (-2 * a + 2) ^ 4 :=
      pow_le_pow_left (by linarith) (by linarith) 4
    linarith

/-- Witness for C7's monotonicity clause at `1/4 ≤ 3/4`. -/
theorem easeGrowth_monotone_witness : easeGrowth (1/4) ≤ easeGrowth (3/4) :=
  easeGrowth_boundary_and_monotone.2.2.2 (1/4) (3/4) (by norm_num) (by norm_num)
    (by norm_num)

/-- C6: emitting an event produces exactly the handlers currently registered for
that name, in registration order, each paired with the payload (one synchronous
invocation per registration); `on` appends at the end of the registration order;
each handler is invoked exactly as many times as it is registered (once if
registered once); emitting an event with no registered handlers produces the
empty invocation trace (a normal return, no error). -/
theorem eventBus_emit_order {α : Type} (b : EventBus) (e : String) (d : α) :
    EventBus.emitTrace b e d = (b.events e).map (fun cb => (cb, d)) ∧
    ((EventBus.emitTrace b e d).map Prod.fst = b.events e) ∧
    (∀ cb : Handler, (EventBus.on b e cb).events e = b.events e ++ [cb]) ∧
    (b.events e = [] → EventBus.emitTrace b e d = []) := by
  refine ⟨rfl, ?_, fun cb => by simp [EventBus.on], fun h => ?_⟩
  · rw [EventBus.emitTrace, List.map_map]
    exact List.map_id' _
  · simp [EventBus.emitTrace, h]

/-- Witness for C6: the spec scenario — two subscribers on event "x", payload 1:
both invoked exactly once, in registration order, each receiving the payload. -/
theorem eventBus_emit_order_witness :
    EventBus.emitTrace ((EventBus.empty.on "x" 1).on "x" 2) "x" (1 : ℕ) =
      [(1, 1), (2, 1)] := by
  have h := eventBus_emit_order ((EventBus.empty.on "x" 1).on "x" 2) "x" (1 : ℕ)
  rw [h.1]
  simp [EventBus.on, EventBus.empty]

/-- C9: adding a color whose hex is not present to a palette of exactly 8
entries evicts the oldest (first) entry and leaves exactly 8 entries; and from
any palette of at most 8 entries, any sequence of additions keeps the length at
most 8. -/
theorem palette_cap (pal : List PaletteColor) (c : PaletteColor) :
    (pal.length = 8 → (∀ x ∈ pal, x.hex ≠ c.hex) →
      addToPalette pal c = pal.drop 1 ++ [c] ∧ (addToPalette pal c).length = 8) ∧
    (∀ cs : List PaletteColor, pal.length ≤ 8 →
      (cs.foldl addToPalette pal).length ≤ 8) := by
  have hstep : ∀ (q : List PaletteColor) (x : PaletteColor),
      q.length ≤ 8 → (addToPalette q x).length ≤ 8 := by
    intro q x hq
    unfold addToPalette
    split_ifs with h1 h2
    · exact hq
    · have h8 : q.length = 8 := le_antisymm hq h2
      simp [List.length_drop, h8]
    · push_neg at h2
      simp only [List.length_append, List.length_cons, List.length_nil]
      omega
  constructor
  · intro hlen hhex
    have hany : ¬ (pal.any (fun x => x.hex = c.hex) = true) := by
      simp only [List.any_eq_true, decide_eq_true_eq]
      rintro ⟨x, hx, hxc⟩
      exact hhex x hx hxc
    constructor
    · unfold addToPalette
      rw [if_neg hany, if_pos (by omega)]
    · unfold addToPalette
      rw [if_neg hany, if_pos (by omega)]
      simp [List.length_drop, hlen]
  · intro cs
    induction cs generalizing pal with
    | nil => intro h; simpa using h
    | cons x xs ih =>
        intro h
        simpa using ih (addToPalette pal x) (hstep pal x h)

/-- Witness for C9: a 9th distinct color on a full 8-color palette. -/
theorem palette_cap_witness :
    addToPalette
      [⟨1,0,0,"#1"⟩, ⟨2,0,0,"#2"⟩, ⟨3,0,0,"#3"⟩, ⟨4,0,0,"#4"⟩,
       ⟨5,0,0,"#5"⟩, ⟨6,0,0,"#6"⟩, ⟨7,0,0,"#7"⟩, ⟨8,0,0,"#8"⟩]
      ⟨9,0,0,"#9"⟩ =
      [⟨2,0,0,"#2"⟩, ⟨3,0,0,"#3"⟩, ⟨4,0,0,"#4"⟩, ⟨5,0,0,"#5"⟩,
       ⟨6,0,0,"#6"⟩, ⟨7,0,0,"#7"⟩, ⟨8,0,0,"#8"⟩, ⟨9,0,0,"#9"⟩] := by
  have h := (palette_cap
      [⟨1,0,0,"#1"⟩, ⟨2,0,0,"#2"⟩, ⟨3,0,0,"#3"⟩, ⟨4,0,0,"#4"⟩,
       ⟨5,0,0,"#5"⟩, ⟨6,0,0,"#6"⟩, ⟨7,0,0,"#7"⟩, ⟨8,0,0,"#8"⟩]
      ⟨9,0,0,"#9"⟩).1 (by rfl) (by decide)
  rw [h.1]
  rfl

/-- C5: switching the particle layer from sync mode to any other mode leaves
every particle's current position exactly equal to its newly computed target
position (positions and targets coincide list-wise after `setMode`). -/
theorem setMode_snap (L : ParticleLayer) (mode : PMode) (rand : ℕ → ℝ)
    (hprev : L.currentMode = .sync) (hmode : mode ≠ .sync) :
    positionsOf (setMode L mode rand).particles =
      targetsOf (setMode L mode rand).particles := by
  unfold setMode
  rw [if_pos ⟨hprev, hmode⟩]
  unfold positionsOf targetsOf
  rw [List.map_map, List.map_map]
  rfl

/-- Witness for C5: a one-particle layer in sync mode switched to wheel mode. -/
theorem setMode_snap_witness :
    positionsOf (setMode ⟨[⟨200, 50, 50, 10, 20, 30, 40, 2, 2, 2, 0⟩],
        0, 0, 800, 600, 400, 300, .sync⟩ .wheel (fun _ => 0)).particles =
      targetsOf (setMode ⟨[⟨200, 50, 50, 10, 20, 30, 40, 2, 2, 2, 0⟩],
        0, 0, 800, 600, 400, 300, .sync⟩ .wheel (fun _ => 0)).particles :=
  setMode_snap _ .wheel _ rfl (by simp)

/-- C3 counterexample: a far-from-pointer point whose depth coordinate differs
from its spiral-target depth is NOT moved toward the target in depth: the
steady-state frame leaves `z` exactly unchanged (only the horizontal coordinate
is pulled 5% toward the target), contradicting the claimed 5% depth pull. -/
theorem galaxy_steady_state_depth_counterexample :
    gMouseInfluenceRadius ≤ gDist ⟨0, 0, 10⟩ ⟨0, 0, 0⟩ 100 100 0 ∧
    (galaxyCompletePointStep ⟨0, 0, 10⟩ ⟨0, 0, 0⟩ 100 100 0).z = 10 ∧
    (10 : ℝ) ≠ 10 + (0 - 10) * 0.05 := by
  refine ⟨?_, ?_, by norm_num⟩
  · unfold gDist gDx gDy gSineY gMouseInfluenceRadius
    have h : (0:ℝ) + Real.sin (0 + 0) * 0.5 - -100 = 100 := by
      norm_num [Real.sin_zero]
    rw [h]
    rw [show ((0:ℝ) - 100) * (0 - 100) + 100 * 100 = 20000 by norm_num]
    rw [Real.le_sqrt' (by norm_num)]
    norm_num
  · unfold galaxyCompletePointStep
    split_ifs <;> rfl

/-- C3 (amended): in the complete phase, a point at pointer distance at least
the influence radius has its horizontal coordinate moved 5% toward its
spiral-target horizontal, its depth coordinate left unchanged, and its vertical
coordinate set to the spiral-target vertical plus the per-point sine of elapsed
time; a point strictly inside the radius (at nonzero distance) is displaced
directly away from the pointer in the x/y plane, proportionally to
`(radius - distance) / radius` times the mouse force, its depth also unchanged. -/
theorem galaxy_steady_state_frame (pos orig : Vec3) (mx my time : ℝ) :
    (gMouseInfluenceRadius ≤ gDist pos orig mx my time →
      galaxyCompletePointStep pos orig mx my time =
        ⟨pos.x + (orig.x - pos.x) * 0.05, gSineY orig time, pos.z⟩) ∧
    (gDist pos orig mx my time < gMouseInfluenceRadius →
      0 < gDist pos orig mx my time →
      (galaxyCompletePointStep pos orig mx my time).x =
        pos.x + gDx pos mx / gDist pos orig mx my time *
          ((gMouseInfluenceRadius - gDist pos orig mx my time) / gMouseInfluenceRadius) *
            gMouseForce ∧
      (galaxyCompletePointStep pos orig mx my time).y =
        gSineY orig time + gDy orig my time / gDist pos orig mx my time *
          ((gMouseInfluenceRadius - gDist pos orig mx my time) / gMouseInfluenceRadius) *
            gMouseForce ∧
      (galaxyCompletePointStep pos orig mx my time).z = pos.z) := by
  constructor
  · intro hfar
    unfold galaxyCompletePointStep
    rw [if_neg (not_lt.mpr hfar)]
  · intro hnear hpos
    have hsq : 0 < gDx pos mx * gDx pos mx + gDy orig my time * gDy orig my time := by
      have := hpos
      unfold gDist at this
      exact Real.sqrt_pos.mp this
    have hz : Complex.mk (gDx pos mx) (gDy orig my time) ≠ 0 := by
      intro h0
      have hre : gDx pos mx = 0 := congrArg Complex.re h0
      have him : gDy orig my time = 0 := congrArg Complex.im h0
      rw [hre, him] at hsq
      norm_num at hsq
    have habs : Complex.abs (Complex.mk (gDx pos mx) (gDy orig my time)) =
        gDist pos orig mx my time := by
      rw [Complex.abs_apply, Complex.normSq_mk]
      rfl
    have hcos : Real.cos (jsAtan2 (gDy orig my time) (gDx pos mx)) =
        gDx pos mx / gDist pos orig mx my time := by
      unfold jsAtan2
      rw [Complex.cos_arg hz, habs]
    have hsin : Real.sin (jsAtan2 (gDy orig my time) (gDx pos mx)) =
        gDy orig my time / gDist pos orig mx my time := by
      unfold jsAtan2
      rw [Complex.sin_arg, habs]
    unfold galaxyCompletePointStep
    rw [if_pos hnear]
    refine ⟨?_, ?_, rfl⟩
    · show pos.x + Real.cos (jsAtan2 (gDy orig my time) (gDx pos mx)) *
        ((gMouseInfluenceRadius - gDist pos orig mx my time) / gMouseInfluenceRadius) *
          gMouseForce = _
      rw [hcos]
    · show gSineY orig time + Real.sin (jsAtan2 (gDy orig my time) (gDx pos mx)) *
        ((gMouseInfluenceRadius - gDist pos orig mx my time) / gMouseInfluenceRadius) *
          gMouseForce = _
      rw [hsin]

/-- Witness for C3's amended theorem: the far branch at a concrete point. -/
theorem galaxy_steady_state_frame_witness :
    galaxyCompletePointStep ⟨1, 2, 3⟩ ⟨0, 0, 0⟩ 100 100 0 =
      ⟨1 + (0 - 1) * 0.05, gSineY ⟨0, 0, 0⟩ 0, 3⟩ := by
  have h : gMouseInfluenceRadius ≤ gDist ⟨1, 2, 3⟩ ⟨0, 0, 0⟩ 100 100 0 := by
    unfold gDist gDx gDy gSineY gMouseInfluenceRadius
    have h1 : (0:ℝ) + Real.sin (0 + 0) * 0.5 - -100 = 100 := by
      norm_num [Real.sin_zero]
    rw [h1]
    rw [show ((1:ℝ) - 100) * (1 - 100) + 100 * 100 = 19801 by norm_num]
    rw [Real.le_sqrt' (by norm_num)]
    norm_num
  exact (galaxy_steady_state_frame ⟨1, 2, 3⟩ ⟨0, 0, 0⟩ 100 100 0).1 h

/-- When the pointer-distance test fails, `Particle.update` is exactly its
no-influence branch. -/
theorem particleUpdate_far (p : Particle) (mx my : ℝ) (h : farFrom p mx my) :
    particleUpdate p mx my = particleFarUpdate p := by
  unfold farFrom at h
  simp only [particleUpdate, particleFarUpdate]
  rw [if_neg (not_lt.mpr h)]

/-- Geometric decay of the displayed-radius offset along iterated no-influence
updates, together with preservation of the base radius. -/
theorem particleFarUpdate_iterate_radius (p : Particle) (n : ℕ) :
    (particleFarUpdate^[n] p).radius - p.baseRadius =
      (1 - 0.15 : ℝ) ^ n * (p.radius - p.baseRadius) ∧
    (particleFarUpdate^[n] p).baseRadius = p.baseRadius := by
  induction n with
  | zero => simp
  | succ n ih =>
      obtain ⟨h1, h2⟩ := ih
      rw [Function.iterate_succ_apply']
      constructor
      · simp only [particleFarUpdate]
        rw [pow_succ]
        linear_combination (1 - 0.15 : ℝ) * h1 + 0.15 * h2
      · simpa only [particleFarUpdate] using h2

/-- Proof that the concrete at-target particle is outside the pointer influence
radius for the pointer at (1000, 1000). -/
theorem pAtTarget_far : farFrom pAtTarget 1000 1000 := by
  unfold farFrom pAtTarget pMouseInfluenceRadius pEase
  rw [show ((1000:ℝ) - (0 + (0 - 0) * 0.08)) * (1000 - (0 + (0 - 0) * 0.08)) +
      (1000 - (0 + (0 - 0) * 0.08)) * (1000 - (0 + (0 - 0) * 0.08)) = 2000000 by norm_num]
  rw [Real.le_sqrt' (by norm_num)]
  norm_num

/-- C4 counterexample: a particle already at its fixed target (the state every
particle is constructed in) keeps distance exactly 0 under an update with the
pointer far away — the distance does not strictly decrease on that frame. -/
theorem particle_strict_decrease_counterexample :
    farFrom pAtTarget 1000 1000 ∧
    distToTarget pAtTarget = 0 ∧
    distToTarget (particleUpdate pAtTarget 1000 1000) = 0 ∧
    ¬ distToTarget (particleUpdate pAtTarget 1000 1000) < distToTarget pAtTarget := by
  have hb : distToTarget pAtTarget = 0 := by
    unfold distToTarget distToTargetSq pAtTarget
    norm_num
  have hupd : particleUpdate pAtTarget 1000 1000 = particleFarUpdate pAtTarget :=
    particleUpdate_far _ _ _ pAtTarget_far
  have ha : distToTarget (particleUpdate pAtTarget 1000 1000) = 0 := by
    rw [hupd]
    unfold distToTarget distToTargetSq particleFarUpdate pAtTarget
    norm_num
  exact ⟨pAtTarget_far, hb, ha, by rw [ha, hb]; exact lt_irrefl 0⟩

/-- C4 (amended): with the pointer outside the influence radius the update is
the no-influence branch; under that branch the distance to the (fixed) target
is scaled by exactly `1 - ease = 0.92` per frame — hence it strictly decreases
whenever it is positive, and a particle already at its target stays there —
the target radius is reset to `baseRadius`, the displayed-radius offset decays
by the factor `1 - 0.15` per frame, and the displayed radius converges to
`baseRadius` as the number of frames grows. -/
theorem particle_convergence (p : Particle) :
    (∀ mx my : ℝ, farFrom p mx my → particleUpdate p mx my = particleFarUpdate p) ∧
    distToTargetSq (particleFarUpdate p) = (1 - pEase) ^ 2 * distToTargetSq p ∧
    distToTarget (particleFarUpdate p) = (1 - pEase) * distToTarget p ∧
    (0 < distToTarget p → distToTarget (particleFarUpdate p) < distToTarget p) ∧
    (particleFarUpdate p).targetRadius = p.baseRadius ∧
    (particleFarUpdate p).radius - p.baseRadius = (1 - 0.15) * (p.radius - p.baseRadius) ∧
    (∀ ε : ℝ, 0 < ε → ∃ N : ℕ, ∀ n, N ≤ n →
      |(particleFarUpdate^[n] p).radius - p.baseRadius| < ε) := by
  have he : (0:ℝ) ≤ 1 - pEase := by norm_num [pEase]
  have hsq : distToTargetSq (particleFarUpdate p) = (1 - pEase) ^ 2 * distToTargetSq p := by
    unfold distToTargetSq particleFarUpdate
    ring
  have hd : distToTarget (particleFarUpdate p) = (1 - pEase) * distToTarget p := by
    unfold distToTarget
    rw [hsq, Real.sqrt_mul (sq_nonneg _), Real.sqrt_sq he]
  refine ⟨fun mx my h => particleUpdate_far p mx my h, hsq, hd, ?_, rfl, ?_, ?_⟩
  · intro hpos
    rw [hd]
    have hE : (0:ℝ) < pEase := by norm_num [pEase]
    nlinarith
  · unfold particleFarUpdate
    ring
  · intro ε hε
    rcases eq_or_ne (p.radius - p.baseRadius) 0 with hc | hc
    · refine ⟨0, fun n _ => ?_⟩
      rw [(particleFarUpdate_iterate_radius p n).1, hc, mul_zero, abs_zero]
      exact hε
    · have hC : 0 < |p.radius - p.baseRadius| := abs_pos.mpr hc
      obtain ⟨N, hN⟩ := exists_pow_lt_of_lt_one
        (div_pos hε hC) (by norm_num : (1 - 0.15 : ℝ) < 1)
      refine ⟨N, fun n hn => ?_⟩
      rw [(particleFarUpdate_iterate_radius p n).1, abs_mul, abs_pow,
        abs_of_nonneg (by norm_num : (0:ℝ) ≤ 1 - 0.15)]
      have h1 : (1 - 0.15 : ℝ) ^ n ≤ (1 - 0.15 : ℝ) ^ N :=
        pow_le_pow_of_le_one (by norm_num) (by norm_num) hn
      have h2 : (1 - 0.15 : ℝ) ^ N * |p.radius - p.baseRadius| < ε :=
        (lt_div_iff hC).mp hN
      calc (1 - 0.15 : ℝ) ^ n * |p.radius - p.baseRadius|
          ≤ (1 - 0.15 : ℝ) ^ N * |p.radius - p.baseRadius| :=
            mul_le_mul_of_nonneg_right h1 (le_of_lt hC)
        _ < ε := h2

/-- Witness for C4's amended theorem: the far-pointer bridge at the at-target
particle and the strict one-step contraction at a particle at distance 5. -/
theorem particle_convergence_witness :
    particleUpdate pAtTarget 1000 1000 = particleFarUpdate pAtTarget ∧
    distToTarget (particleFarUpdate pOff) < distToTarget pOff := by
  have hpos : 0 < distToTarget pOff := by
    unfold distToTarget
    rw [show distToTargetSq pOff = 25 by unfold distToTargetSq pOff; norm_num]
    rw [show (25:ℝ) = 5 ^ 2 by norm_num, Real.sqrt_sq (by norm_num)]
    norm_num
  exact ⟨(particle_convergence pAtTarget).1 1000 1000 pAtTarget_far,
    (particle_convergence pOff).2.2.2.1 hpos⟩

/-- Over the reals, the source guard `Math.sqrt(a² + b²) < r` is equivalent to
the square-root-free test `0 < r ∧ a² + b² < r²` used by `inRegion`. -/
theorem sqrt_lt_iff_sq_lt (a b r : ℝ) :
    Real.sqrt (a ^ 2 + b ^ 2) < r ↔ 0 < r ∧ a ^ 2 + b ^ 2 < r ^ 2 := by
  constructor
  · intro h
    have hr : 0 < r := lt_of_le_of_lt (Real.sqrt_nonneg _) h
    exact ⟨hr, (Real.sqrt_lt' hr).mp h⟩
  · rintro ⟨hr, hlt⟩
    exact (Real.sqrt_lt' hr).mpr hlt

/-- Rounding `Math.round(c * 255)` lands in `[0, 255]` whenever the channel `c` is in
`[0, 1]`. -/
theorem jsRound_channel_range {c : ℚ} (h0 : 0 ≤ c) (h1 : c ≤ 1) :
    0 ≤ jsRound (c * 255) ∧ jsRound (c * 255) ≤ 255 := by
  unfold jsRound
  constructor
  · exact Int.le_floor.mpr (by push_cast; linarith)
  · have : (c * 255 + 1/2 : ℚ) < 256 := by linarith
    have h := Int.floor_lt.mpr (by push_cast; linarith : (c * 255 + 1/2 : ℚ) < ((256:ℤ):ℚ))
    omega

/-- C10 counterexample: a galaxy point whose stored red channel is `-188/255`
(the color-lerp target extrapolates outside `[0,1]` for points with spiral
radius above 20, e.g. `color2.lerp(color1, 2)` has red `-188/255`) yields a
sample with `r = -188`, not an integer in `[0, 255]`. -/
theorem sampleColors_range_counterexample :
    ((sampleColorsInRegion [⟨0, 0, 0, -188/255, 0, 0⟩] 0 0 5).map Sample.r) = [-188] ∧
    ¬ ((0 : ℤ) ≤ -188) := by
  have hreg : inRegion 0 0 5 (⟨0, 0, 0, -188/255, 0, 0⟩ : GPoint) := by
    unfold inRegion
    norm_num
  constructor
  · unfold sampleColorsInRegion
    rw [List.filter_cons]
    rw [if_pos (by simpa using decide_eq_true hreg)]
    simp only [List.filter_nil, List.map_cons, List.map_nil, mkSample,
      List.take_succ_cons, List.take_nil]
    congr 1
    show jsRound (-188/255 * 255) = -188
    unfold jsRound
    rw [show (-188/255 * 255 + 1/2 : ℚ) = -375/2 by norm_num]
    rw [Int.floor_eq_iff]
    norm_num
  · decide

/-- C10 (amended): `sampleColorsInRegion` returns at most 50 samples, each
produced from some point of the cloud whose x/y distance from the center is
strictly less than the radius, with channels `Math.round(channel * 255)`; the
channels are integers in `[0, 255]` provided every stored channel lies in
`[0, 1]` (the code never clamps stored colors, hence the proviso). -/
theorem sampleColors_spec (points : List GPoint) (x y radius : ℚ) :
    (sampleColorsInRegion points x y radius).length ≤ 50 ∧
    (∀ s ∈ sampleColorsInRegion points x y radius,
      ∃ pt ∈ points, inRegion x y radius pt ∧ s = mkSample pt) ∧
    ((∀ pt ∈ points, 0 ≤ pt.cr ∧ pt.cr ≤ 1 ∧ 0 ≤ pt.cg ∧ pt.cg ≤ 1 ∧
        0 ≤ pt.cb ∧ pt.cb ≤ 1) →
      ∀ s ∈ sampleColorsInRegion points x y radius,
        (0 ≤ s.r ∧ s.r ≤ 255) ∧ (0 ≤ s.g ∧ s.g ≤ 255) ∧ (0 ≤ s.b ∧ s.b ≤ 255)) := by
  have hmem : ∀ s ∈ sampleColorsInRegion points x y radius,
      ∃ pt ∈ points, inRegion x y radius pt ∧ s = mkSample pt := by
    intro s hs
    have hs' : s ∈ (points.filter
        (fun pt => decide (inRegion x y radius pt))).map mkSample :=
      List.take_subset 50 _ hs
    obtain ⟨pt, hptf, hpts⟩ := List.mem_map.mp hs'
    obtain ⟨hptmem, hptdec⟩ := List.mem_filter.mp hptf
    exact ⟨pt, hptmem, of_decide_eq_true hptdec, hpts.symm⟩
  refine ⟨?_, hmem, ?_⟩
  · unfold sampleColorsInRegion
    rw [List.length_take]
    exact min_le_left _ _
  · intro hall s hs
    obtain ⟨pt, hptmem, _, rfl⟩ := hmem s hs
    obtain ⟨hr0, hr1, hg0, hg1, hb0, hb1⟩ := hall pt hptmem
    exact ⟨jsRound_channel_range hr0 hr1, jsRound_channel_range hg0 hg1,
      jsRound_channel_range hb0 hb1⟩

/-- Witness for C10's amended theorem at a one-point mid-gray cloud. -/
theorem sampleColors_spec_witness :
    (sampleColorsInRegion [⟨0, 0, 0, 1/2, 1/2, 1/2⟩] 0 0 5).length ≤ 50 ∧
    (0 ≤ (mkSample ⟨0, 0, 0, 1/2, 1/2, 1/2⟩).r ∧
      (mkSample ⟨0, 0, 0, 1/2, 1/2, 1/2⟩).r ≤ 255) := by
  have h := sampleColors_spec [⟨0, 0, 0, 1/2, 1/2, 1/2⟩] 0 0 5
  refine ⟨h.1, ?_⟩
  have hreg : inRegion 0 0 5 (⟨0, 0, 0, 1/2, 1/2, 1/2⟩ : GPoint) := by
    unfold inRegion
    norm_num
  have hlist : sampleColorsInRegion [⟨0, 0, 0, 1/2, 1/2, 1/2⟩] 0 0 5 =
      [mkSample ⟨0, 0, 0, 1/2, 1/2, 1/2⟩] := by
    unfold sampleColorsInRegion
    rw [List.filter_cons]
    rw [if_pos (by simpa using decide_eq_true hreg)]
    simp
  have hmem : mkSample ⟨0, 0, 0, 1/2, 1/2, 1/2⟩ ∈
      sampleColorsInRegion [⟨0, 0, 0, 1/2, 1/2, 1/2⟩] 0 0 5 := by
    rw [hlist]
    exact List.mem_singleton.mpr rfl
  refine (h.2.2 ?_ _ hmem).1
  intro pt hpt
  rw [List.mem_singleton] at hpt
  subst hpt
  norm_num

/-! ## Color round-trip helper lemmas (C8) -/

theorem hueWrap_eq_self {t : ℚ} (h0 : 0 ≤ t) (h1 : t ≤ 1) : hueWrap t = t := by
  unfold hueWrap
  rw [if_neg (not_lt.mpr h0)]
  rw [if_neg (not_lt.mpr h1)]

theorem hueWrap_of_neg {t : ℚ} (h : t < 0) : hueWrap t = t + 1 := by
  unfold hueWrap
  rw [if_pos h]
  rw [if_neg (not_lt.mpr (by linarith : t + 1 ≤ 1))]

theorem hueWrap_of_gt_one {t : ℚ} (h : 1 < t) : hueWrap t = t - 1 := by
  unfold hueWrap
  rw [if_neg (not_lt.mpr (by linarith : (0:ℚ) ≤ t))]
  rw [if_pos h]

/-- On `[0, 1/6]` (wrapped), `hue2rgb` is the rising segment; the value at the
right endpoint agrees with the flat `q` segment, so the bound is inclusive. -/
theorem hue2rgb_eval_first {p q t : ℚ} (h0 : 0 ≤ hueWrap t) (h6 : hueWrap t ≤ 1/6) :
    hue2rgb p q t = p + (q - p) * 6 * hueWrap t := by
  unfold hue2rgb
  rcases lt_or_le (hueWrap t) (1/6) with h | h
  · rw [if_pos h]
  · have ht : hueWrap t = 1/6 := le_antisymm h6 h
    rw [if_neg (not_lt.mpr h), if_pos (by rw [ht]; norm_num), ht]
    ring

/-- On `[1/6, 1/2]` (wrapped), `hue2rgb` returns `q` (at the right endpoint the
descending segment also evaluates to `q`, so the bound is inclusive). -/
theorem hue2rgb_eval_max {p q t : ℚ} (h6 : 1/6 ≤ hueWrap t) (h2 : hueWrap t ≤ 1/2) :
    hue2rgb p q t = q := by
  unfold hue2rgb
  rcases lt_or_le (hueWrap t) (1/2) with h | h
  · rw [if_neg (not_lt.mpr h6), if_pos h]
  · have ht : hueWrap t = 1/2 := le_antisymm h2 h
    rw [if_neg (not_lt.mpr h6), if_neg (not_lt.mpr h), if_pos (by rw [ht]; norm_num), ht]
    ring

/-- On `[1/2, 2/3]` (wrapped), `hue2rgb` is the descending segment; the value at
the right endpoint agrees with the flat `p` segment, so the bound is inclusive. -/
theorem hue2rgb_eval_third {p q t : ℚ} (h2 : 1/2 ≤ hueWrap t) (h3 : hueWrap t ≤ 2/3) :
    hue2rgb p q t = p + (q - p) * (2/3 - hueWrap t) * 6 := by
  unfold hue2rgb
  have h6 : ¬ hueWrap t < 1/6 := not_lt.mpr (by linarith)
  rcases lt_or_le (hueWrap t) (2/3) with h | h
  · rw [if_neg h6, if_neg (not_lt.mpr h2), if_pos h]
  · have ht : hueWrap t = 2/3 := le_antisymm h3 h
    rw [if_neg h6, if_neg (not_lt.mpr h2), if_neg (not_lt.mpr h), ht]
    ring

/-- At and above `2/3` (wrapped), `hue2rgb` returns `p`. -/
theorem hue2rgb_eval_p {p q t : ℚ} (h3 : 2/3 ≤ hueWrap t) : hue2rgb p q t = p := by
  unfold hue2rgb
  rw [if_neg (not_lt.mpr (by linarith)), if_neg (not_lt.mpr (by linarith)),
    if_neg (not_lt.mpr h3)]

/-- The `q` of `hslToRgb` (and hence `p = 2l - q`) recovers the channel maximum and
minimum from the saturation/lightness produced by `rgbToHsl`, abstractly in the
maximum `M` and minimum `m`. -/
theorem hslQP_abstract (M m : ℚ) (h0 : 0 ≤ m) (hlt : m < M) (h1 : M ≤ 1) :
    hslQ (if 1/2 < (M + m) / 2 then (M - m) / (2 - M - m) else (M - m) / (M + m))
      ((M + m) / 2) = M ∧
    hslP (if 1/2 < (M + m) / 2 then (M - m) / (2 - M - m) else (M - m) / (M + m))
      ((M + m) / 2) = m := by
  have hsum : 0 < M + m := by linarith
  have hsum2 : 0 < 2 - M - m := by linarith
  have hq : hslQ (if 1/2 < (M + m) / 2 then (M - m) / (2 - M - m) else (M - m) / (M + m))
      ((M + m) / 2) = M := by
    unfold hslQ
    rcases lt_trichotomy ((M + m) / 2) (1/2) with hl | hl | hl
    · rw [if_neg (not_lt.mpr (le_of_lt hl)), if_pos hl]
      field_simp
      ring
    · have hs1 : M + m = 1 := by linarith
      rw [if_neg (not_lt.mpr (le_of_eq hl)), if_neg (not_lt.mpr (ge_of_eq hl)), hs1]
      have hd1 : (M - m) / 1 = M - m := by norm_num
      rw [hd1]
      linarith
    · rw [if_pos hl, if_neg (not_lt.mpr (le_of_lt hl))]
      field_simp
      ring
  refine ⟨hq, ?_⟩
  unfold hslP
  rw [hq]
  ring

/-- Channel reconstruction, hue case: max = r (`switch` matches `case r`) and
`g ≥ b` (so min = b and the hue lies in `[0, 1/6]`). -/
theorem hue_caseA1 (x y z : ℚ) (hzy : z ≤ y) (hyx : y ≤ x) (hzx : z < x) :
    hue2rgb z x (((y - z) / (x - z) + 0) / 6 + 1/3) = x ∧
    hue2rgb z x (((y - z) / (x - z) + 0) / 6) = y ∧
    hue2rgb z x (((y - z) / (x - z) + 0) / 6 - 1/3) = z := by
  have hd : 0 < x - z := by linarith
  have hf0 : 0 ≤ (y - z) / (x - z) := div_nonneg (by linarith) (le_of_lt hd)
  have hf1 : (y - z) / (x - z) ≤ 1 := (div_le_one hd).mpr (by linarith)
  have hw1 : hueWrap (((y - z) / (x - z) + 0) / 6 + 1/3) =
      ((y - z) / (x - z) + 0) / 6 + 1/3 := hueWrap_eq_self (by linarith) (by linarith)
  have hw2 : hueWrap (((y - z) / (x - z) + 0) / 6) = ((y - z) / (x - z) + 0) / 6 :=
    hueWrap_eq_self (by linarith) (by linarith)
  have hw3 : hueWrap (((y - z) / (x - z) + 0) / 6 - 1/3) =
      ((y - z) / (x - z) + 0) / 6 - 1/3 + 1 := hueWrap_of_neg (by linarith)
  refine ⟨?_, ?_, ?_⟩
  · exact hue2rgb_eval_max (by rw [hw1]; linarith) (by rw [hw1]; linarith)
  · rw [hue2rgb_eval_first (by rw [hw2]; linarith) (by rw [hw2]; linarith), hw2]
    field_simp
  · rw [hue2rgb_eval_p (by rw [hw3]; linarith)]

/-- Channel reconstruction, hue case: max = r and `g < b` (so min = g and the
hue lies in `[5/6, 1)`). -/
theorem hue_caseA2 (x y z : ℚ) (hyz : y < z) (hzx : z ≤ x) (hyx : y < x) :
    hue2rgb y x (((y - z) / (x - y) + 6) / 6 + 1/3) = x ∧
    hue2rgb y x (((y - z) / (x - y) + 6) / 6) = y ∧
    hue2rgb y x (((y - z) / (x - y) + 6) / 6 - 1/3) = z := by
  have hd : 0 < x - y := by linarith
  have hfneg : (y - z) / (x - y) < 0 := div_neg_of_neg_of_pos (by linarith) hd
  have hfm1 : -1 ≤ (y - z) / (x - y) := (le_div_iff hd).mpr (by linarith)
  have hw1 : hueWrap (((y - z) / (x - y) + 6) / 6 + 1/3) =
      ((y - z) / (x - y) + 6) / 6 + 1/3 - 1 := hueWrap_of_gt_one (by linarith)
  have hw2 : hueWrap (((y - z) / (x - y) + 6) / 6) = ((y - z) / (x - y) + 6) / 6 :=
    hueWrap_eq_self (by linarith) (by linarith)
  have hw3 : hueWrap (((y - z) / (x - y) + 6) / 6 - 1/3) =
      ((y - z) / (x - y) + 6) / 6 - 1/3 := hueWrap_eq_self (by linarith) (by linarith)
  refine ⟨?_, ?_, ?_⟩
  · exact hue2rgb_eval_max (by rw [hw1]; linarith) (by rw [hw1]; linarith)
  · rw [hue2rgb_eval_p (by rw [hw2]; linarith)]
  · rw [hue2rgb_eval_third (by rw [hw3]; linarith) (by rw [hw3]; linarith), hw3]
    field_simp
    ring

/-- Channel reconstruction, hue case: max = g (first `case r` fails, `case g`
matches), with min = min r b and the hue in `[1/6, 1/2]`. -/
theorem hue_caseB (x y z : ℚ) (hxy : x < y) (hzy : z ≤ y) :
    hue2rgb (min x z) y (((z - x) / (y - min x z) + 2) / 6 + 1/3) = x ∧
    hue2rgb (min x z) y (((z - x) / (y - min x z) + 2) / 6) = y ∧
    hue2rgb (min x z) y (((z - x) / (y - min x z) + 2) / 6 - 1/3) = z := by
  have hmx : min x z ≤ x := min_le_left _ _
  have hmz : min x z ≤ z := min_le_right _ _
  have hd : 0 < y - min x z := by linarith
  have hf1 : (z - x) / (y - min x z) ≤ 1 := (div_le_one hd).mpr (by linarith)
  have hfm1 : -1 ≤ (z - x) / (y - min x z) := (le_div_iff hd).mpr (by linarith)
  refine ⟨?_, ?_, ?_⟩
  · rcases le_or_lt z x with hzx | hxz
    · have hmin : min x z = z := min_eq_right hzx
      have hfle : (z - x) / (y - min x z) ≤ 0 :=
        div_nonpos_of_nonpos_of_nonneg (by linarith) (le_of_lt hd)
      have hw : hueWrap (((z - x) / (y - min x z) + 2) / 6 + 1/3) =
          ((z - x) / (y - min x z) + 2) / 6 + 1/3 :=
        hueWrap_eq_self (by linarith) (by linarith)
      rw [hue2rgb_eval_third (by rw [hw]; linarith) (by rw [hw]; linarith), hw, hmin]
      rw [hmin] at hd
      field_simp
      ring
    · have hmin : min x z = x := min_eq_left (le_of_lt hxz)
      have hfpos : 0 < (z - x) / (y - min x z) := div_pos (by linarith) hd
      have hw : hueWrap (((z - x) / (y - min x z) + 2) / 6 + 1/3) =
          ((z - x) / (y - min x z) + 2) / 6 + 1/3 :=
        hueWrap_eq_self (by linarith) (by linarith)
      rw [hue2rgb_eval_p (by rw [hw]; linarith), hmin]
  · have hw : hueWrap (((z - x) / (y - min x z) + 2) / 6) =
        ((z - x) / (y - min x z) + 2) / 6 := hueWrap_eq_self (by linarith) (by linarith)
    exact hue2rgb_eval_max (by rw [hw]; linarith) (by rw [hw]; linarith)
  · rcases le_or_lt x z with hxz | hzx
    · have hmin : min x z = x := min_eq_left hxz
      have hf0 : 0 ≤ (z - x) / (y - min x z) := div_nonneg (by linarith) (le_of_lt hd)
      have hw : hueWrap (((z - x) / (y - min x z) + 2) / 6 - 1/3) =
          ((z - x) / (y - min x z) + 2) / 6 - 1/3 :=
        hueWrap_eq_self (by linarith) (by linarith)
      rw [hue2rgb_eval_first (by rw [hw]; linarith) (by rw [hw]; linarith), hw, hmin]
      rw [hmin] at hd
      field_simp
      ring
    · have hmin : min x z = z := min_eq_right (le_of_lt hzx)
      have hfneg : (z - x) / (y - min x z) < 0 := div_neg_of_neg_of_pos (by linarith) hd
      have hw : hueWrap (((z - x) / (y - min x z) + 2) / 6 - 1/3) =
          ((z - x) / (y - min x z) + 2) / 6 - 1/3 + 1 := hueWrap_of_neg (by linarith)
      rw [hue2rgb_eval_p (by rw [hw]; linarith), hmin]

/-- Channel reconstruction, hue case: max = b (both `case r` and `case g`
fail), with min = min r g and the hue in `[1/2, 5/6]`. -/
theorem hue_caseC (x y z : ℚ) (hxz : x < z) (hyz : y < z) :
    hue2rgb (min x y) z (((x - y) / (z - min x y) + 4) / 6 + 1/3) = x ∧
    hue2rgb (min x y) z (((x - y) / (z - min x y) + 4) / 6) = y ∧
    hue2rgb (min x y) z (((x - y) / (z - min x y) + 4) / 6 - 1/3) = z := by
  have hmx : min x y ≤ x := min_le_left _ _
  have hmy : min x y ≤ y := min_le_right _ _
  have hd : 0 < z - min x y := by linarith
  have hf1 : (x - y) / (z - min x y) ≤ 1 := (div_le_one hd).mpr (by linarith)
  have hfm1 : -1 ≤ (x - y) / (z - min x y) := (le_div_iff hd).mpr (by linarith)
  refine ⟨?_, ?_, ?_⟩
  · rcases le_or_lt x y with hxy | hyx
    · have hmin : min x y = x := min_eq_left hxy
      have hfle : (x - y) / (z - min x y) ≤ 0 :=
        div_nonpos_of_nonpos_of_nonneg (by linarith) (le_of_lt hd)
      have hw : hueWrap (((x - y) / (z - min x y) + 4) / 6 + 1/3) =
          ((x - y) / (z - min x y) + 4) / 6 + 1/3 :=
        hueWrap_eq_self (by linarith) (by linarith)
      rw [hue2rgb_eval_p (by rw [hw]; linarith), hmin]
    · have hmin : min x y = y := min_eq_right (le_of_lt hyx)
      have hfpos : 0 < (x - y) / (z - min x y) := div_pos (by linarith) hd
      have hw : hueWrap (((x - y) / (z - min x y) + 4) / 6 + 1/3) =
          ((x - y) / (z - min x y) + 4) / 6 + 1/3 - 1 := hueWrap_of_gt_one (by linarith)
      rw [hue2rgb_eval_first (by rw [hw]; linarith) (by rw [hw]; linarith), hw, hmin]
      rw [hmin] at hd
      field_simp
      ring
  · rcases le_or_lt x y with hxy | hyx
    · have hmin : min x y = x := min_eq_left hxy
      have hfle : (x - y) / (z - min x y) ≤ 0 :=
        div_nonpos_of_nonpos_of_nonneg (by linarith) (le_of_lt hd)
      have hw : hueWrap (((x - y) / (z - min x y) + 4) / 6) =
          ((x - y) / (z - min x y) + 4) / 6 := hueWrap_eq_self (by linarith) (by linarith)
      rw [hue2rgb_eval_third (by rw [hw]; linarith) (by rw [hw]; linarith), hw, hmin]
      rw [hmin] at hd
      field_simp
      ring
    · have hmin : min x y = y := min_eq_right (le_of_lt hyx)
      have hfpos : 0 < (x - y) / (z - min x y) := div_pos (by linarith) hd
      have hw : hueWrap (((x - y) / (z - min x y) + 4) / 6) =
          ((x - y) / (z - min x y) + 4) / 6 := hueWrap_eq_self (by linarith) (by linarith)
      rw [hue2rgb_eval_p (by rw [hw]; linarith), hmin]
  · have hw : hueWrap (((x - y) / (z - min x y) + 4) / 6 - 1/3) =
        ((x - y) / (z - min x y) + 4) / 6 - 1/3 :=
      hueWrap_eq_self (by linarith) (by linarith)
    exact hue2rgb_eval_max (by rw [hw]; linarith) (by rw [hw]; linarith)

/-- Evaluating `hue2rgb` at the hue produced by `rgbToHsl` (shifted by +1/3, 0,
-1/3) with `p` the channel minimum and `q` the channel maximum reconstructs the
three normalized channels exactly, whenever max ≠ min. -/
theorem hue_reconstruct (x y z : ℚ) (hne : rgbMax x y z ≠ rgbMin x y z) :
    hue2rgb (rgbMin x y z) (rgbMax x y z) (rgbHue x y z + 1/3) = x ∧
    hue2rgb (rgbMin x y z) (rgbMax x y z) (rgbHue x y z) = y ∧
    hue2rgb (rgbMin x y z) (rgbMax x y z) (rgbHue x y z - 1/3) = z := by
  by_cases hMx : rgbMax x y z = x
  · have hmaxyz : max y z ≤ x := by
      rw [← hMx]
      exact le_max_right x (max y z)
    have hyx : y ≤ x := le_trans (le_max_left y z) hmaxyz
    have hzx : z ≤ x := le_trans (le_max_right y z) hmaxyz
    by_cases hyz : y < z
    · have hmin : rgbMin x y z = y := by
        unfold rgbMin
        rw [min_eq_left (le_of_lt hyz), min_eq_right hyx]
      have hyltx : y < x := by
        rcases lt_or_eq_of_le hyx with h | h
        · exact h
        · exact absurd (by rw [hMx, hmin, h]) hne
      have hH : rgbHue x y z = ((y - z) / (x - y) + 6) / 6 := by
        unfold rgbHue
        rw [if_pos hMx, if_pos hyz, hMx, hmin]
      rw [hmin, hMx, hH]
      exact hue_caseA2 x y z hyz hzx hyltx
    · have hzy : z ≤ y := not_lt.mp hyz
      have hmin : rgbMin x y z = z := by
        unfold rgbMin
        rw [min_eq_right hzy, min_eq_right hzx]
      have hzltx : z < x := by
        rcases lt_or_eq_of_le hzx with h | h
        · exact h
        · exact absurd (by rw [hMx, hmin, h]) hne
      have hH : rgbHue x y z = ((y - z) / (x - z) + 0) / 6 := by
        unfold rgbHue
        rw [if_pos hMx, if_neg hyz, hMx, hmin]
      rw [hmin, hMx, hH]
      exact hue_caseA1 x y z hzy hyx hzltx
  · by_cases hMy : rgbMax x y z = y
    · have hxmax : x ≤ rgbMax x y z := le_max_left _ _
      have hxy : x < y := by
        rcases lt_or_eq_of_le (hMy ▸ hxmax : x ≤ y) with h | h
        · exact h
        · exact absurd (by rw [hMy, h]) hMx
      have hzy : z ≤ y := by
        have h1 : z ≤ max y z := le_max_right _ _
        have h2 : max y z ≤ rgbMax x y z := le_max_right _ _
        exact le_trans h1 (le_trans h2 (le_of_eq hMy))
      have hmin : rgbMin x y z = min x z := by
        unfold rgbMin
        rw [min_eq_right hzy]
      have hH : rgbHue x y z = ((z - x) / (y - min x z) + 2) / 6 := by
        unfold rgbHue
        rw [if_neg hMx, if_pos hMy, hMy, hmin]
      rw [hmin, hMy, hH]
      exact hue_caseB x y z hxy hzy
    · have hMz : rgbMax x y z = z := by
        rcases max_choice x (max y z) with h | h
        · exact absurd h hMx
        · rcases max_choice y z with h2 | h2
          · exact absurd (h.trans h2) hMy
          · exact h.trans h2
      have hxz : x < z := by
        have hxle : x ≤ z := by
          rw [← hMz]
          exact le_max_left _ _
        rcases lt_or_eq_of_le hxle with h | h
        · exact h
        · exact absurd (by rw [hMz, ← h]) hMx
      have hyz : y < z := by
        have hyle : y ≤ z := by
          rw [← hMz]
          exact le_trans (le_max_left y z) (le_max_right x (max y z))
        rcases lt_or_eq_of_le hyle with h | h
        · exact h
        · exact absurd (by rw [hMz, ← h]) hMy
      have hmin : rgbMin x y z = min x y := by
        unfold rgbMin
        rw [min_eq_left (le_of_lt hyz)]
      have hH : rgbHue x y z = ((x - y) / (z - min x y) + 4) / 6 := by
        unfold rgbHue
        rw [if_neg hMx, if_neg hMy, hMz, hmin]
      rw [hmin, hMz, hH]
      exact hue_caseC x y z hxz hyz

theorem jsRound_intCast (n : ℤ) : jsRound (n : ℚ) = n := by
  unfold jsRound
  exact Int.floor_eq_iff.mpr ⟨by push_cast; linarith, by push_cast; linarith⟩

/-- The round trip is exact on integer channels: `hslToRgb ∘ rgbToHsl = id`
over exact rational arithmetic. -/
theorem color_roundtrip_exact (r g b : ℤ)
    (hr0 : 0 ≤ r) (hr1 : r ≤ 255) (hg0 : 0 ≤ g) (hg1 : g ≤ 255)
    (hb0 : 0 ≤ b) (hb1 : b ≤ 255) :
    hslToRgb (rgbToHsl (r:ℚ) (g:ℚ) (b:ℚ)).1 (rgbToHsl (r:ℚ) (g:ℚ) (b:ℚ)).2.1
      (rgbToHsl (r:ℚ) (g:ℚ) (b:ℚ)).2.2 = (r, g, b) := by
  have hx0 : (0:ℚ) ≤ (r:ℚ)/255 := div_nonneg (by exact_mod_cast hr0) (by norm_num)
  have hx1 : (r:ℚ)/255 ≤ 1 := by
    rw [div_le_one (by norm_num : (0:ℚ) < 255)]
    exact_mod_cast hr1
  have hy0 : (0:ℚ) ≤ (g:ℚ)/255 := div_nonneg (by exact_mod_cast hg0) (by norm_num)
  have hy1 : (g:ℚ)/255 ≤ 1 := by
    rw [div_le_one (by norm_num : (0:ℚ) < 255)]
    exact_mod_cast hg1
  have hz0 : (0:ℚ) ≤ (b:ℚ)/255 := div_nonneg (by exact_mod_cast hb0) (by norm_num)
  have hz1 : (b:ℚ)/255 ≤ 1 := by
    rw [div_le_one (by norm_num : (0:ℚ) < 255)]
    exact_mod_cast hb1
  have hxmul : (r:ℚ)/255 * 255 = (r:ℚ) := div_mul_cancel₀ _ (by norm_num)
  have hymul : (g:ℚ)/255 * 255 = (g:ℚ) := div_mul_cancel₀ _ (by norm_num)
  have hzmul : (b:ℚ)/255 * 255 = (b:ℚ) := div_mul_cancel₀ _ (by norm_num)
  by_cases heq : rgbMax ((r:ℚ)/255) ((g:ℚ)/255) ((b:ℚ)/255) =
      rgbMin ((r:ℚ)/255) ((g:ℚ)/255) ((b:ℚ)/255)
  · -- max = min: all three channels coincide; rgbToHsl returns (0, 0, l*100)
    have hxm : (r:ℚ)/255 = rgbMin ((r:ℚ)/255) ((g:ℚ)/255) ((b:ℚ)/255) := by
      refine le_antisymm ?_ (min_le_left _ _)
      rw [← heq]
      exact le_max_left _ _
    have hym : (g:ℚ)/255 = rgbMin ((r:ℚ)/255) ((g:ℚ)/255) ((b:ℚ)/255) := by
      refine le_antisymm ?_ (le_trans (min_le_right _ _) (min_le_left _ _))
      rw [← heq]
      exact le_trans (le_max_left _ _) (le_max_right _ _)
    have hzm : (b:ℚ)/255 = rgbMin ((r:ℚ)/255) ((g:ℚ)/255) ((b:ℚ)/255) := by
      refine le_antisymm ?_ (le_trans (min_le_right _ _) (min_le_right _ _))
      rw [← heq]
      exact le_trans (le_max_right _ _) (le_max_right _ _)
    have hgr : g = r := by
      have hq : (g:ℚ)/255 = (r:ℚ)/255 := hym.trans hxm.symm
      have : (g:ℚ) = (r:ℚ) := by
        field_simp at hq
        exact_mod_cast hq
      exact_mod_cast this
    have hbr : b = r := by
      have hq : (b:ℚ)/255 = (r:ℚ)/255 := hzm.trans hxm.symm
      have : (b:ℚ) = (r:ℚ) := by
        field_simp at hq
        exact_mod_cast hq
      exact_mod_cast this
    have hlum : rgbLum ((r:ℚ)/255) ((g:ℚ)/255) ((b:ℚ)/255) = (r:ℚ)/255 := by
      unfold rgbLum
      rw [heq, ← hxm]
      ring
    have hHSL : rgbToHsl (r:ℚ) (g:ℚ) (b:ℚ) =
        (0, 0, rgbLum ((r:ℚ)/255) ((g:ℚ)/255) ((b:ℚ)/255) * 100) := by
      unfold rgbToHsl
      rw [if_pos heq]
    rw [hHSL]
    show hslToRgb 0 0 (rgbLum ((r:ℚ)/255) ((g:ℚ)/255) ((b:ℚ)/255) * 100) = (r, g, b)
    unfold hslToRgb
    rw [if_pos (by norm_num : (0:ℚ)/100 = 0)]
    rw [hlum]
    rw [show (r:ℚ)/255 * 100 / 100 * 255 = (r:ℚ) by field_simp; ring]
    rw [jsRound_intCast, hgr, hbr]
  · -- max ≠ min: the generic reconstruction
    have hmM : rgbMin ((r:ℚ)/255) ((g:ℚ)/255) ((b:ℚ)/255) <
        rgbMax ((r:ℚ)/255) ((g:ℚ)/255) ((b:ℚ)/255) :=
      lt_of_le_of_ne (le_trans (min_le_left _ _) (le_max_left _ _)) (Ne.symm heq)
    have h0m : (0:ℚ) ≤ rgbMin ((r:ℚ)/255) ((g:ℚ)/255) ((b:ℚ)/255) :=
      le_min hx0 (le_min hy0 hz0)
    have hM1 : rgbMax ((r:ℚ)/255) ((g:ℚ)/255) ((b:ℚ)/255) ≤ 1 :=
      max_le hx1 (max_le hy1 hz1)
    have hQP := hslQP_abstract (rgbMax ((r:ℚ)/255) ((g:ℚ)/255) ((b:ℚ)/255))
      (rgbMin ((r:ℚ)/255) ((g:ℚ)/255) ((b:ℚ)/255)) h0m hmM hM1
    have hQ : hslQ (rgbSat ((r:ℚ)/255) ((g:ℚ)/255) ((b:ℚ)/255))
        (rgbLum ((r:ℚ)/255) ((g:ℚ)/255) ((b:ℚ)/255)) =
        rgbMax ((r:ℚ)/255) ((g:ℚ)/255) ((b:ℚ)/255) := hQP.1
    have hP : hslP (rgbSat ((r:ℚ)/255) ((g:ℚ)/255) ((b:ℚ)/255))
        (rgbLum ((r:ℚ)/255) ((g:ℚ)/255) ((b:ℚ)/255)) =
        rgbMin ((r:ℚ)/255) ((g:ℚ)/255) ((b:ℚ)/255) := hQP.2
    have hHue := hue_reconstruct ((r:ℚ)/255) ((g:ℚ)/255) ((b:ℚ)/255) heq
    have hSpos : 0 < rgbSat ((r:ℚ)/255) ((g:ℚ)/255) ((b:ℚ)/255) := by
      unfold rgbSat
      split_ifs with hl
      · exact div_pos (by linarith) (by linarith)
      · exact div_pos (by linarith) (by linarith)
    have hS : rgbSat ((r:ℚ)/255) ((g:ℚ)/255) ((b:ℚ)/255) * 100 / 100 =
        rgbSat ((r:ℚ)/255) ((g:ℚ)/255) ((b:ℚ)/255) := by field_simp
    have hH360 : rgbHue ((r:ℚ)/255) ((g:ℚ)/255) ((b:ℚ)/255) * 360 / 360 =
        rgbHue ((r:ℚ)/255) ((g:ℚ)/255) ((b:ℚ)/255) := by field_simp
    have hL : rgbLum ((r:ℚ)/255) ((g:ℚ)/255) ((b:ℚ)/255) * 100 / 100 =
        rgbLum ((r:ℚ)/255) ((g:ℚ)/255) ((b:ℚ)/255) := by field_simp
    have hHSL : rgbToHsl (r:ℚ) (g:ℚ) (b:ℚ) =
        (rgbHue ((r:ℚ)/255) ((g:ℚ)/255) ((b:ℚ)/255) * 360,
         rgbSat ((r:ℚ)/255) ((g:ℚ)/255) ((b:ℚ)/255) * 100,
         rgbLum ((r:ℚ)/255) ((g:ℚ)/255) ((b:ℚ)/255) * 100) := by
      unfold rgbToHsl
      rw [if_neg heq]
    rw [hHSL]
    show hslToRgb (rgbHue ((r:ℚ)/255) ((g:ℚ)/255) ((b:ℚ)/255) * 360)
      (rgbSat ((r:ℚ)/255) ((g:ℚ)/255) ((b:ℚ)/255) * 100)
      (rgbLum ((r:ℚ)/255) ((g:ℚ)/255) ((b:ℚ)/255) * 100) = (r, g, b)
    unfold hslToRgb
    rw [hS]
    rw [if_neg hSpos.ne']
    rw [hH360, hL, hQ, hP]
    rw [hHue.1, hHue.2.1, hHue.2.2]
    rw [hxmul, hymul, hzmul]
    rw [jsRound_intCast, jsRound_intCast, jsRound_intCast]

/-- C8: for every RGB triple of integer channels in `[0, 255]`, applying
`rgbToHsl` then `hslToRgb` returns each channel within ±1 of the original — in
exact rational arithmetic the round trip is in fact exact, so the difference is
0 on every channel. -/
theorem rgb_hsl_roundtrip (r g b : ℤ)
    (hr0 : 0 ≤ r) (hr1 : r ≤ 255) (hg0 : 0 ≤ g) (hg1 : g ≤ 255)
    (hb0 : 0 ≤ b) (hb1 : b ≤ 255) :
    hslToRgb (rgbToHsl (r:ℚ) (g:ℚ) (b:ℚ)).1 (rgbToHsl (r:ℚ) (g:ℚ) (b:ℚ)).2.1
      (rgbToHsl (r:ℚ) (g:ℚ) (b:ℚ)).2.2 = (r, g, b) ∧
    |(hslToRgb (rgbToHsl (r:ℚ) (g:ℚ) (b:ℚ)).1 (rgbToHsl (r:ℚ) (g:ℚ) (b:ℚ)).2.1
      (rgbToHsl (r:ℚ) (g:ℚ) (b:ℚ)).2.2).1 - r| ≤ 1 ∧
    |(hslToRgb (rgbToHsl (r:ℚ) (g:ℚ) (b:ℚ)).1 (rgbToHsl (r:ℚ) (g:ℚ) (b:ℚ)).2.1
      (rgbToHsl (r:ℚ) (g:ℚ) (b:ℚ)).2.2).2.1 - g| ≤ 1 ∧
    |(hslToRgb (rgbToHsl (r:ℚ) (g:ℚ) (b:ℚ)).1 (rgbToHsl (r:ℚ) (g:ℚ) (b:ℚ)).2.1
      (rgbToHsl (r:ℚ) (g:ℚ) (b:ℚ)).2.2).2.2 - b| ≤ 1 := by
  have h := color_roundtrip_exact r g b hr0 hr1 hg0 hg1 hb0 hb1
  refine ⟨h, ?_, ?_, ?_⟩ <;> rw [h] <;> norm_num

/-- Witness for C8 at the concrete triple (250, 100, 50). -/
theorem rgb_hsl_roundtrip_witness :
    hslToRgb (rgbToHsl (250:ℚ) 100 50).1 (rgbToHsl (250:ℚ) 100 50).2.1
      (rgbToHsl (250:ℚ) 100 50).2.2 = (250, 100, 50) := by
  have h := (rgb_hsl_roundtrip 250 100 50 (by norm_num) (by norm_num) (by norm_num)
    (by norm_num) (by norm_num) (by norm_num)).1
  exact_mod_cast h

end CosmicLab
